import Mathlib

/-!
Verification development for the ProtonOS symbol tooling.

Two programs are embedded here, both shallowly, translated statement by
statement from the Python sources:

- `tools/gen_elf_syms.py`, the static symbol-table synthesizer, which turns
  a debug-database dump into a minimal ELF object file, modelled from the
  point where the per-record text extraction has produced
  `(address, size, name)` triples;
- `tools/gdb-protonos.py`, the debugger helper, whose base-address locate
  command, JIT registry walk and embedded-ELF resolver are modelled over an
  abstract remote-memory channel.

Python strings are modelled as lists of their UTF-8 code units; for valid
text this preserves equality and the lexicographic comparison order used by
tuple sorting, and makes the later `.encode` step the identity.  Python
bytes objects are lists of naturals below 256, and reading target memory is
a function returning `Option` (a `none` models the channel raising a
memory error).
-/

namespace ProtonOS

/-- Byte strings and symbol names are lists of naturals (code units). -/
abbrev Name := List Nat

/-- A static symbol: absolute address, size, name. -/
abbrev Sym := Nat × Nat × Name

/-- Little-endian value of a byte list, least significant first. -/
def leVal : List Nat → Nat
  | [] => 0
  | b :: bs => b + 256 * leVal bs

/-- Pack a value into `w` little-endian bytes, as `struct.pack_into` does
for the fixed-width field codes used by the synthesizer. -/
def packLE : Nat → Nat → List Nat
  | 0, _ => []
  | w + 1, v => (v % 256) :: packLE w (v / 256)

/-- Slice `b[i : i+n]` of a byte list, shorter when out of range, as a
Python slice is. -/
def sliceN (b : List Nat) (i n : Nat) : List Nat := (b.drop i).take n

/-! ### The static symbol-table synthesizer, `gen_elf_syms.py`

Lines 102-205 of the source, from the point where the three record
collections exist.  The tool first runs two extraction passes over the
debug-database dump (modelled below for the dedup claims), producing a
function list `symbols` and a data list `data_symbols`; `all_symbols`
is their concatenation. -/

/-- The preferred image base hard-coded by both tools. -/
def IMAGE_BASE : Nat := 0x140000000

/-- Sort key of a symbol for `sorted(all_symbols)`: Python compares
`(addr, size, name)` tuples lexicographically, strings by code unit. -/
def symKey (s : Sym) : Nat ×ₗ (Nat ×ₗ List Nat) := toLex (s.1, toLex (s.2.1, s.2.2))

/-- The total order used by `sorted(all_symbols)`. -/
def symLeP (x y : Sym) : Prop := symKey x ≤ symKey y

instance : DecidableRel symLeP := fun x y => inferInstanceAs (Decidable (symKey x ≤ symKey y))

instance : IsTotal Sym symLeP := ⟨fun a b => le_total (symKey a) (symKey b)⟩

instance : IsTrans Sym symLeP := ⟨fun _ _ _ h h2 => le_trans h h2⟩

instance : IsAntisymm Sym symLeP where
  antisymm a b h h2 := by
    obtain ⟨a1, a2, a3⟩ := a
    obtain ⟨b1, b2, b3⟩ := b
    simpa [symKey, toLex, Equiv.refl, Prod.ext_iff] using le_antisymm h h2

/-- The `sorted(all_symbols)` call of line 182.  The tuple order is total
and antisymmetric, so every sorting algorithm yields the same, unique
sorted arrangement; an insertion sort realizes it here. -/
def pySorted (l : List Sym) : List Sym := l.insertionSort symLeP

/-- Assignment `d[k] = v` on an insertion-ordered Python dict: replace in
place when the key exists, append otherwise. -/
def assocSet (d : List (Name × Nat)) (k : Name) (v : Nat) : List (Name × Nat) :=
  if d.any (fun p => p.1 == k) then d.map (fun p => if p.1 == k then (k, v) else p)
  else d ++ [(k, v)]

/-- Lookup `d[k]` on the string-offset dict (0 when absent; the source
only looks up names it has inserted). -/
def assocGet (d : List (Name × Nat)) (k : Name) : Nat :=
  ((d.find? (fun p => p.1 == k)).map Prod.snd).getD 0

/-- Lines 110-114: build the symbol string table and the name-to-offset
dict.  The offset is recorded before the name and its NUL are appended. -/
def strtabFold (l : List Sym) : List Nat × List (Name × Nat) :=
  l.foldl
    (fun acc s => (acc.1 ++ s.2.2 ++ [0], assocSet acc.2 s.2.2 acc.1.length))
    ([0], [])

/-- The symbol string table bytes (line 110-114). -/
def strtabBytes (l : List Sym) : List Nat := (strtabFold l).1

/-- The `str_offsets` dict after the build. -/
def strOffsets (l : List Sym) : List (Name × Nat) := (strtabFold l).2

/-- The section-name string table of line 106,
`\0.text\0.symtab\0.strtab\0.shstrtab\0`. -/
def shstrtabBytes : List Nat :=
  [0] ++ [0x2e, 0x74, 0x65, 0x78, 0x74, 0] ++
  [0x2e, 0x73, 0x79, 0x6d, 0x74, 0x61, 0x62, 0] ++
  [0x2e, 0x73, 0x74, 0x72, 0x74, 0x61, 0x62, 0] ++
  [0x2e, 0x73, 0x68, 0x73, 0x74, 0x72, 0x74, 0x61, 0x62, 0]

/-- The 64-byte ELF file header of lines 117-131 (unset fields are the
zero bytes of the fresh bytearray). -/
def ehdrBytes : List Nat :=
  [0x7f, 0x45, 0x4c, 0x46, 2, 1, 1, 0, 0, 0, 0, 0, 0, 0, 0, 0] ++
  packLE 2 2 ++ packLE 2 62 ++ packLE 4 1 ++
  packLE 8 (IMAGE_BASE + 0x3d000) ++ packLE 8 0 ++ packLE 8 64 ++
  packLE 4 0 ++ packLE 2 64 ++ packLE 2 0 ++ packLE 2 0 ++
  packLE 2 64 ++ packLE 2 5 ++ packLE 2 4

/-- A 64-byte section header with the ten ELF64 fields in layout order. -/
def mkShdr (nm ty flags addr off size link info align entsize : Nat) : List Nat :=
  packLE 4 nm ++ packLE 4 ty ++ packLE 8 flags ++ packLE 8 addr ++
  packLE 8 off ++ packLE 8 size ++ packLE 4 link ++ packLE 4 info ++
  packLE 8 align ++ packLE 8 entsize

/-- One 24-byte symbol record (lines 183-193).  `st_info` is
`GLOBAL|FUNC` when the name is one of the function-pass names, else
`GLOBAL|OBJECT`. -/
def symRecord (offs : List (Name × Nat)) (funcNames : List Name) (s : Sym) : List Nat :=
  packLE 4 (assocGet offs s.2.2) ++
  [if funcNames.contains s.2.2 then 0x12 else 0x11] ++ [0] ++
  packLE 2 1 ++ packLE 8 s.1 ++ packLE 8 s.2.1

/-- Lines 177-193: the symbol table, one zero sentinel record then one
record per symbol in `sorted(all_symbols)` order. -/
def buildSymtab (symbols dataSymbols : List Sym) : List Nat :=
  let allSyms := symbols ++ dataSymbols
  let offs := strOffsets allSyms
  let funcNames := symbols.map (fun s => s.2.2)
  List.replicate 24 0 ++ (pySorted allSyms).flatMap (symRecord offs funcNames)

/-- Lines 102-205: the full output byte stream of the synthesizer, headers
then section header array then the three tables, with every offset a
running total as in the source. -/
def synthesize (symbols dataSymbols : List Sym) : List Nat :=
  let allSyms := symbols ++ dataSymbols
  let strtab := strtabBytes allSyms
  let textOffset := 64 + 5 * 64
  let symtabOffset := textOffset
  let strtabOffset := symtabOffset + (allSyms.length + 1) * 24
  let shstrtabOffset := strtabOffset + strtab.length
  ehdrBytes ++
  List.replicate 64 0 ++
  mkShdr 1 1 6 (IMAGE_BASE + 0x3d000) textOffset 0 0 0 0 0 ++
  mkShdr 7 2 0 0 symtabOffset ((allSyms.length + 1) * 24) 3 1 0 24 ++
  mkShdr 15 3 0 0 strtabOffset strtab.length 0 0 0 0 ++
  mkShdr 23 3 0 0 shstrtabOffset shstrtabBytes.length 0 0 0 0 ++
  buildSymtab symbols dataSymbols ++
  strtab ++
  shstrtabBytes

/-! ### The extraction passes of `gen_elf_syms.py` (lines 27-103)

The primary pass appends every parsed `S_GPROC32` record to `symbols` and
every `S_GDATA32` record to `data_symbols`, with no duplicate check.  The
public pass (lines 69-100) walks the `S_PUB32` records; a record is
modelled as its name plus the absolute address computed from its addr
line, `none` when that line did not parse or named an unknown section. -/

/-- A public-symbol record after text extraction. -/
abbrev PubRec := Name × Option Nat

/-- The code units of the filtered compiler-internal marker `__Str__`. -/
def strStrName : Name := [95, 95, 83, 116, 114, 95, 95]

/-- The code units of the filtered marker `_unwind`. -/
def unwindName : Name := [95, 117, 110, 119, 105, 110, 100]

/-- The code units of `__jit_debug_descriptor`. -/
def jitDescName : Name :=
  [95, 95, 106, 105, 116, 95, 100, 101, 98, 117, 103, 95, 100, 101, 115, 99,
   114, 105, 112, 116, 111, 114]

/-- The code units of `g_`. -/
def gName : Name := [103, 95]

/-- Lines 72-100: process the public-symbol records in order against the
running `existing_names` set, appending classified survivors to the two
symbol lists. -/
def processPubs : List PubRec → List Name → List Sym → List Sym → List Sym × List Sym
  | [], _, syms, datas => (syms, datas)
  | (n, a?) :: rest, existing, syms, datas =>
    if n ∈ existing then processPubs rest existing syms datas
    else if strStrName.isPrefixOf n || unwindName.isPrefixOf n then
      processPubs rest existing syms datas
    else match a? with
      | none => processPubs rest existing syms datas
      | some a =>
        if jitDescName.isPrefixOf n || gName.isPrefixOf n then
          processPubs rest (existing ++ [n]) syms (datas ++ [(a, 0, n)])
        else processPubs rest (existing ++ [n]) (syms ++ [(a, 0, n)]) datas

/-- The whole collection stage: primary-pass lists seed the name set
(line 70), then the public pass runs. -/
def collectSymbols (procs gdatas : List Sym) (pubs : List PubRec) : List Sym × List Sym :=
  processPubs pubs (procs.map (fun s => s.2.2) ++ gdatas.map (fun s => s.2.2)) procs gdatas

/-- Line 103: `all_symbols = symbols + data_symbols`. -/
def allSymbolsOf (p : List Sym × List Sym) : List Sym := p.1 ++ p.2

/-- The static filters a public record must clear to be retained, given a
fresh name: not a filtered compiler marker, and its address computed. -/
def pubPasses (p : PubRec) : Bool :=
  !(strStrName.isPrefixOf p.1) && !(unwindName.isPrefixOf p.1) && p.2.isSome

/-! ### The debugger helper, `gdb-protonos.py`

The remote target is abstracted as a memory channel: an optional
descriptor address (the `parse_and_eval` of line 326, `none` when that
evaluation raises) and a read function returning `none` when the channel
raises a memory error for that range.  Reads that return byte lists of
unexpected length model the remaining exception paths (`struct.error`). -/

/-- The remote-memory channel a scan or resolution runs against. -/
structure Mem where
  descAddr : Option Nat
  read : Nat → Nat → Option (List Nat)

/-- Host-side state of one discovered JIT entry (the dict of line 377). -/
structure JitInfo where
  elfAddr : Nat
  elfSize : Nat
  loaded : Bool
  name : Option Name
  codeAddr : Option Nat
deriving DecidableEq

/-- The fresh unresolved info dict stored for a discovered entry. -/
def mkJitInfo (sa ss : Nat) : JitInfo := ⟨sa, ss, false, none, none⟩

/-- One successfully read and unpacked list node. -/
structure NodeRec where
  entry : Nat
  next : Nat
  prev : Nat
  blobAddr : Nat
  blobSize : Nat
deriving DecidableEq

/-- Why a scan stopped (the `stop_reason` strings of the source). -/
inductive StopReason where
  | firstEntryNull
  | cycleDetected (a : Nat)
  | tooLow (a : Nat)
  | tooHigh (a : Nat)
  | inaccessible (a : Nat)
  | errorAt (a : Nat)
  | endOfList
  | initError
  | outOfFuel
deriving DecidableEq

/-- Result of one registry scan.  `jitSymbols` is the insertion-ordered
dict keyed by blob address; `derefTrace` records every node address
passed to the channel, `nodes` every successfully unpacked node and
`inserts` every `(blobAddr, blobSize)` pair that passed the size filter,
in traversal order. -/
structure ScanResult where
  jitSymbols : List (Nat × JitInfo)
  stopReason : StopReason
  totalCount : Nat
  inaccessibleCount : Nat
  errors : Nat
  derefTrace : List Nat
  nodes : List NodeRec
  inserts : List (Nat × Nat)
deriving DecidableEq

/-- Assignment `d[k] = v` on the insertion-ordered entry dict: an
existing key keeps its position and gets the new value, a fresh key is
appended. -/
def dictInsert : List (Nat × JitInfo) → Nat → JitInfo → List (Nat × JitInfo)
  | [], k, v => [(k, v)]
  | p :: rest, k, v => if p.1 = k then (k, v) :: rest else p :: dictInsert rest k v

/-- The key sequence of the entry dict. -/
def dictKeys (d : List (Nat × JitInfo)) : List Nat := d.map Prod.fst

/-- Lookup `d[k]` on the entry dict. -/
def dictFind (d : List (Nat × JitInfo)) (k : Nat) : Option JitInfo :=
  (d.find? (fun p => p.1 == k)).map Prod.snd

/-- The empty scan state. -/
def emptyScan : ScanResult := ⟨[], .endOfList, 0, 0, 0, [], [], []⟩

/-- Fuel for the walk.  The loop of lines 350-400 admits at most one
iteration per distinct in-window address, so this bound, larger than the
window, is never reached (theorem `walkAux_ne_outOfFuel`). -/
def scanFuel : Nat := 0x1000000000000

/-- Lines 350-400: walk the linked list.  Each iteration checks the
null terminator, the visited set, the plausible-address window, then
reads and unpacks the 32-byte node, applies the blob sanity filter and
follows `next`. -/
def walkAux (mem : Mem) : Nat → Nat → List Nat → ScanResult → ScanResult
  | 0, _, _, st => { st with stopReason := .outOfFuel }
  | fuel + 1, entry, visited, st =>
    if entry = 0 then { st with stopReason := .endOfList }
    else if entry ∈ visited then { st with stopReason := .cycleDetected entry }
    else
      let st1 := { st with totalCount := st.totalCount + 1 }
      if entry < 0x10000 then { st1 with stopReason := .tooLow entry }
      else if 0xFFFFFFFFFFFF < entry then { st1 with stopReason := .tooHigh entry }
      else
        let st2 := { st1 with derefTrace := st1.derefTrace ++ [entry] }
        match mem.read entry 32 with
        | none => { st2 with inaccessibleCount := st2.inaccessibleCount + 1,
                             stopReason := .inaccessible entry }
        | some data =>
          if data.length = 32 then
            let nxt := leVal (sliceN data 0 8)
            let prv := leVal (sliceN data 8 8)
            let sa := leVal (sliceN data 16 8)
            let ss := leVal (sliceN data 24 8)
            let st3 := { st2 with nodes := st2.nodes ++ [⟨entry, nxt, prv, sa, ss⟩] }
            let st4 := if sa ≠ 0 ∧ ss ≠ 0 ∧ ss < 0x100000 then
                { st3 with jitSymbols := dictInsert st3.jitSymbols sa (mkJitInfo sa ss),
                           inserts := st3.inserts ++ [(sa, ss)] }
              else st3
            walkAux mem fuel nxt (visited ++ [entry]) st4
          else { st2 with errors := st2.errors + 1, stopReason := .errorAt entry }

/-- Lines 317-413, `_scan_jit_list`: clear the entry set, read the
24-byte descriptor, return zero entries when `first_entry` is the null
pointer, otherwise walk the list. -/
def scanJitList (mem : Mem) : ScanResult :=
  match mem.descAddr with
  | none => { emptyScan with stopReason := .initError }
  | some da =>
    match mem.read da 24 with
    | none => { emptyScan with stopReason := .initError }
    | some d =>
      if d.length = 24 then
        if leVal (sliceN d 16 8) = 0 then { emptyScan with stopReason := .firstEntryNull }
        else walkAux mem scanFuel (leVal (sliceN d 16 8)) [] emptyScan
      else { emptyScan with stopReason := .initError }

/-- The count `_scan_jit_list` returns (line 413). -/
def scanCount (mem : Mem) : Nat := (scanJitList mem).jitSymbols.length

/-- The global entry set published by a scan as a function of the set
published before it: line 318 clears the global before anything else, so
the previous set never survives into the result. -/
def scanPublish (_prev : List (Nat × JitInfo)) (mem : Mem) : List (Nat × JitInfo) :=
  (scanJitList mem).jitSymbols

/-- The blob sanity filter of line 376 as a function on read nodes. -/
def nodeFilter (n : NodeRec) : Option (Nat × Nat) :=
  if n.blobAddr ≠ 0 ∧ n.blobSize ≠ 0 ∧ n.blobSize < 0x100000 then
    some (n.blobAddr, n.blobSize)
  else none

/-! ### The embedded-ELF resolver (lines 254-305 and 574-588) -/

/-- The expected four signature bytes. -/
def elfMagic : List Nat := [0x7f, 0x45, 0x4c, 0x46]

/-- Unpack one little-endian field of `n` bytes at offset `i`;
`none` models the `struct.error` raised on a short slice. -/
def unpackLE (b : List Nat) (i n : Nat) : Option Nat :=
  if (sliceN b i n).length = n then some (leVal (sliceN b i n)) else none

/-- Read section header `i`: type, offset and size fields
(lines 271-274). -/
def readShdr (b : List Nat) (shoff i : Nat) : Option (Nat × Nat × Nat) := do
  let ty ← unpackLE b (shoff + i * 64 + 4) 4
  let off ← unpackLE b (shoff + i * 64 + 24) 8
  let sz ← unpackLE b (shoff + i * 64 + 32) 8
  pure (ty, off, sz)

/-- Read the first `n` section headers in order; any short read is the
exception the caller catches. -/
def readShdrs (b : List Nat) (shoff : Nat) : Nat → Option (List (Nat × Nat × Nat))
  | 0 => some []
  | k + 1 => do
    let rest ← readShdrs b shoff k
    let h ← readShdr b shoff k
    pure (rest ++ [h])

/-- Lines 276-280: select the symbol table (type 2, every hit replaces)
and the first string table (type 3). -/
def findTables : List (Nat × Nat × Nat) → Option (Nat × Nat) → Option Nat →
    Option (Nat × Nat) × Option Nat
  | [], sym?, str? => (sym?, str?)
  | h :: rest, sym?, str? =>
    if h.1 = 2 then findTables rest (some (h.2.1, h.2.2)) str?
    else if h.1 = 3 ∧ str? = none then findTables rest sym? (some h.2.1)
    else findTables rest sym? str?

/-- Read symbol record `i`: `st_name`, `st_info`, `st_value`
(lines 288-291). -/
def readSym (b : List Nat) (soff i : Nat) : Option (Nat × Nat × Nat) := do
  let stName ← unpackLE b (soff + i * 24) 4
  let stInfo ← b[soff + i * 24 + 4]?
  let stValue ← unpackLE b (soff + i * 24 + 8) 8
  pure (stName, stInfo, stValue)

/-- Lines 297-302: the name is the run of bytes before the first NUL at
the given string-table offset, bounds-checked. -/
def readCString (b : List Nat) (i : Nat) : Name := (b.drop i).takeWhile (fun x => x != 0)

/-- Lines 287-303: scan `k` symbol records starting at index `i` for the
first whose type nibble is `STT_FUNC`. -/
def findFuncSym (b : List Nat) (soff stroff : Nat) : Nat → Nat → Except Unit (Option (Name × Nat))
  | 0, _ => .ok none
  | k + 1, i =>
    match readSym b soff i with
    | none => .error ()
    | some (stName, stInfo, stValue) =>
      if stInfo % 16 = 2 then .ok (some (readCString b (stroff + stName), stValue))
      else findFuncSym b soff stroff k (i + 1)

/-- Lines 254-305, `parse_elf_symbol`: an `Except` failure models an
exception escaping to the caller (always caught there); `.ok none` is
the `(None, None)` return. -/
def parse_elf_symbol (b : List Nat) : Except Unit (Option (Name × Nat)) :=
  if b.take 4 ≠ elfMagic then .ok none
  else
    match unpackLE b 40 8, unpackLE b 60 2, unpackLE b 62 2 with
    | some shoff, some shnum, some _ =>
      match readShdrs b shoff shnum with
      | none => .error ()
      | some sections =>
        match findTables sections none none with
        | (some st, some stroff) => findFuncSym b st.1 stroff (st.2 / 24 - 1) 1
        | _ => .ok none
    | _, _, _ => .error ()

/-- Lines 574-588, `_resolve_jit_symbol`.  Returns the success flag, the
(possibly updated) entry, and whether target memory was read at all. -/
def resolveJitSymbol (mem : Mem) (info : JitInfo) : Bool × JitInfo × Bool :=
  match info.name with
  | some _ => (true, info, false)
  | none =>
    match mem.read info.elfAddr info.elfSize with
    | none => (false, info, true)
    | some data =>
      match parse_elf_symbol data with
      | .error _ => (false, info, true)
      | .ok none => (false, info, true)
      | .ok (some (nm, v)) =>
        if nm ≠ [] ∧ v ≠ 0 then
          (true, { info with name := some nm, codeAddr := some v }, true)
        else (false, info, true)

/-! ### The connect command (lines 415-462) -/

/-- The observable debugger actions `proton-connect` issues. -/
inductive GCmd where
  | targetRemote
  | watchMarker
  | continueExec
  | deleteAll
  | addSymbolFile (offset : Int)
deriving DecidableEq

/-- The expected marker constant of line 27. -/
def GDB_DEBUG_MARKER_VALUE : Nat := 0xDEADBEEF

/-- The preferred PE image base of line 28. -/
def PE_IMAGE_BASE : Nat := 0x140000000

/-- What a `proton-connect` run leaves behind. -/
structure ConnectOutcome where
  trace : List GCmd
  symbolOffset : Option Int
  warned : Bool
deriving DecidableEq

/-- Lines 421-456, `ProtonConnectCommand.invoke`, as a function of the
marker value read back after the watch fires and of the actual base read
from the second cell: connect, arm the watch, continue; on a marker
mismatch warn and return, else compute the offset, delete the watch,
load symbols and publish the offset. -/
def protonConnect (marker actualBase : Nat) : ConnectOutcome :=
  if marker ≠ GDB_DEBUG_MARKER_VALUE then
    { trace := [.targetRemote, .watchMarker, .continueExec],
      symbolOffset := none, warned := true }
  else
    { trace := [.targetRemote, .watchMarker, .continueExec, .deleteAll,
        .addSymbolFile ((actualBase : Int) - (PE_IMAGE_BASE : Int))],
      symbolOffset := some ((actualBase : Int) - (PE_IMAGE_BASE : Int)),
      warned := false }

/-! ### Concrete channels and blobs used as witness inputs -/

/-- A channel whose registry holds a two-node cycle. -/
def cycMem : Mem where
  descAddr := some 0x40000
  read := fun a n =>
    if a = 0x40000 ∧ n = 24 then
      some (packLE 4 1 ++ packLE 4 0 ++ packLE 8 0 ++ packLE 8 0x20000)
    else if a = 0x20000 ∧ n = 32 then
      some (packLE 8 0x30000 ++ packLE 8 0 ++ packLE 8 0x111000 ++ packLE 8 64)
    else if a = 0x30000 ∧ n = 32 then
      some (packLE 8 0x20000 ++ packLE 8 0x20000 ++ packLE 8 0x222000 ++ packLE 8 64)
    else none

/-- A channel whose registry head pointer is implausibly low. -/
def lowPtrMem : Mem where
  descAddr := some 0x40000
  read := fun a n =>
    if a = 0x40000 ∧ n = 24 then
      some (packLE 4 1 ++ packLE 4 0 ++ packLE 8 0 ++ packLE 8 0x100)
    else none

/-- A channel whose registry is empty (`first_entry == 0`). -/
def nullListMem : Mem where
  descAddr := some 0x40000
  read := fun a n =>
    if a = 0x40000 ∧ n = 24 then some (List.replicate 24 0) else none

/-- A channel with one node whose blob address is the null pointer while
its blob size is 64. -/
def zeroBlobAddrMem : Mem where
  descAddr := some 0x40000
  read := fun a n =>
    if a = 0x40000 ∧ n = 24 then
      some (packLE 4 1 ++ packLE 4 0 ++ packLE 8 0 ++ packLE 8 0x20000)
    else if a = 0x20000 ∧ n = 32 then
      some (packLE 8 0 ++ packLE 8 0 ++ packLE 8 0 ++ packLE 8 64)
    else none

/-- A channel on which even the descriptor evaluation raises. -/
def noDescMem : Mem where
  descAddr := none
  read := fun _ _ => none

/-- A channel whose first node is readable and collected but whose
second node sits in an unreadable range. -/
def midFailMem : Mem where
  descAddr := some 0x40000
  read := fun a n =>
    if a = 0x40000 ∧ n = 24 then
      some (packLE 4 1 ++ packLE 4 0 ++ packLE 8 0 ++ packLE 8 0x20000)
    else if a = 0x20000 ∧ n = 32 then
      some (packLE 8 0x30000 ++ packLE 8 0 ++ packLE 8 0x111000 ++ packLE 8 64)
    else none

/-- A channel with two nodes whose blobs share one address with two
different sizes. -/
def dupBlobMem : Mem where
  descAddr := some 0x40000
  read := fun a n =>
    if a = 0x40000 ∧ n = 24 then
      some (packLE 4 1 ++ packLE 4 0 ++ packLE 8 0 ++ packLE 8 0x20000)
    else if a = 0x20000 ∧ n = 32 then
      some (packLE 8 0x30000 ++ packLE 8 0 ++ packLE 8 0x111000 ++ packLE 8 64)
    else if a = 0x30000 ∧ n = 32 then
      some (packLE 8 0 ++ packLE 8 0x20000 ++ packLE 8 0x111000 ++ packLE 8 80)
    else none

/-- A previously published nonempty entry set. -/
def prevSetEx : List (Nat × JitInfo) := [(0x123, mkJitInfo 0x123 16)]

/-- A 244-byte well-formed blob: ELF header, a symbol-table section and a
string-table section, one null symbol and one `STT_FUNC` symbol named
`Foo` with value `0x1010`. -/
def fooBlob : List Nat :=
  elfMagic ++ List.replicate 36 0 ++ packLE 8 64 ++ List.replicate 12 0 ++
  packLE 2 2 ++ packLE 2 0 ++
  mkShdr 0 2 0 0 192 48 0 0 0 0 ++
  mkShdr 0 3 0 0 240 4 0 0 0 0 ++
  List.replicate 24 0 ++
  (packLE 4 0 ++ [0x12] ++ [0] ++ packLE 2 0 ++ packLE 8 0x1010 ++ packLE 8 0) ++
  [70, 111, 111, 0]

/-- A channel carrying `fooBlob` at address `0x500000`. -/
def fooBlobMem : Mem where
  descAddr := none
  read := fun a n => if a = 0x500000 ∧ n = 244 then some fooBlob else none

/-- A channel carrying a blob with a wrong signature. -/
def badMagicMem : Mem where
  descAddr := none
  read := fun a n => if a = 0x600000 ∧ n = 4 then some [1, 2, 3, 4] else none

/-! ## Theorems -/

theorem length_packLE (w v : Nat) : (packLE w v).length = w := by
  induction w generalizing v with
  | zero => rfl
  | succ w ih => simp [packLE, ih]

theorem leVal_packLE (w v : Nat) : leVal (packLE w v) = v % 256 ^ w := by
  induction w generalizing v with
  | zero => simp [packLE, leVal, Nat.mod_one]
  | succ w ih =>
      simp only [packLE, leVal, ih]
      rw [pow_succ, Nat.mul_comm (256 ^ w) 256, Nat.mod_mul]

/-! ### Order facts about the symbol sort -/

theorem symLeP_fst_le {x y : Sym} (h : symLeP x y) : x.1 ≤ y.1 := by
  rcases (Prod.Lex.le_iff _ _).mp h with h1 | ⟨h1, _⟩
  · exact le_of_lt h1
  · exact le_of_eq h1

theorem pySorted_perm (l : List Sym) : (pySorted l).Perm l := List.perm_insertionSort _ l

theorem pySorted_sorted (l : List Sym) : List.Sorted symLeP (pySorted l) :=
  List.sorted_insertionSort _ l

/-- Helper: flatMap with records of constant length 24. -/
theorem flatMap_const_length (f : Sym → List Nat) (h : ∀ s, (f s).length = 24) :
    ∀ l : List Sym, (l.flatMap f).length = 24 * l.length := by
  intro l
  induction l with
  | nil => simp
  | cons a l ih => simp [List.flatMap_cons, ih, h a, Nat.mul_succ, Nat.add_comm]

/-- Helper: dropping whole records from a flatMap of constant-length
records lands at the record of the given index. -/
theorem flatMap_drop (f : Sym → List Nat) (h : ∀ s, (f s).length = 24) :
    ∀ (l : List Sym) (i : Nat) (hi : i < l.length),
      (l.flatMap f).drop (24 * i) = f (l.get ⟨i, hi⟩) ++ (l.drop (i + 1)).flatMap f := by
  intro l
  induction l with
  | nil => intro i hi; simp at hi
  | cons a l ih =>
      intro i hi
      cases i with
      | zero => simp [List.flatMap_cons]
      | succ j =>
          have hj : j < l.length := by simpa using Nat.lt_of_succ_lt_succ hi
          have hlen : 24 * (j + 1) = (f a).length + 24 * j := by rw [h a]; ring
          simp only [List.flatMap_cons, hlen, List.drop_append]
          simpa using ih j hj

/-- C1, counterexample: the two orderings of one and the same two-element
symbol set synthesize different output bytes (the string table follows
first-seen order). -/
theorem C1_counterexample :
    List.Perm [((0x10 : Nat), (0 : Nat), ([97] : Name)), (0x20, 0, [98])]
      [(0x20, 0, [98]), (0x10, 0, [97])] ∧
    synthesize [(0x10, 0, [97]), (0x20, 0, [98])] [] ≠
      synthesize [(0x20, 0, [98]), (0x10, 0, [97])] [] := by
  constructor
  · decide
  · set_option maxRecDepth 40000 in decide

/-- C1, amended: the synthesizer is a pure function of its input sequence,
and the sequence of `(address, size, name)` records emitted into the
symbol table depends only on the input multiset (it is the unique
arrangement sorted by the tuple order); the full output bytes, however,
depend on input order through the string table. -/
theorem C1_sorted_records_order_independent :
    ∀ l₁ l₂ : List Sym, l₁.Perm l₂ → pySorted l₁ = pySorted l₂ := by
  intro l₁ l₂ h
  exact List.eq_of_perm_of_sorted
    ((pySorted_perm l₁).trans (h.trans (pySorted_perm l₂).symm))
    (pySorted_sorted l₁) (pySorted_sorted l₂)

/-- C1 witness: the order-independence of the sorted record sequence at a
concrete pair of reordered inputs. -/
theorem C1_sorted_records_witness :
    pySorted [(0x10, 0, [97]), (0x20, 0, [98])] =
      pySorted [(0x20, 0, [98]), (0x10, 0, [97])] :=
  C1_sorted_records_order_independent _ _ (by decide)

theorem symRecord_length (offs : List (Name × Nat)) (fn : List Name) (s : Sym) :
    (symRecord offs fn s).length = 24 := by
  by_cases h : fn.contains s.2.2 <;> simp [symRecord, length_packLE, h]

/-- Helper: the eight bytes at offset 8 of record `i` of the emitted
symbol table are the packed address of the i-th sorted symbol. -/
theorem symtab_addr_slice (symbols dataSymbols : List Sym) (i : Nat)
    (hi : i < (pySorted (symbols ++ dataSymbols)).length) :
    sliceN (buildSymtab symbols dataSymbols) (24 * (i + 1) + 8) 8 =
      packLE 8 ((pySorted (symbols ++ dataSymbols)).get ⟨i, hi⟩).1 := by
  set allSyms := symbols ++ dataSymbols with hall
  set offs := strOffsets allSyms
  set fn := symbols.map (fun s => s.2.2)
  have hf : ∀ s, (symRecord offs fn s).length = 24 := symRecord_length offs fn
  have h1 : buildSymtab symbols dataSymbols =
      List.replicate 24 0 ++ (pySorted allSyms).flatMap (symRecord offs fn) := rfl
  have h2 : 24 * (i + 1) + 8 = (List.replicate 24 (0 : Nat)).length + (24 * i + 8) := by
    simp [List.length_replicate]; ring
  rw [sliceN, h1, h2, List.drop_append, ← List.drop_drop, flatMap_drop _ hf _ i hi]
  have h3 : symRecord offs fn ((pySorted allSyms).get ⟨i, hi⟩) =
      (packLE 4 (assocGet offs ((pySorted allSyms).get ⟨i, hi⟩).2.2) ++
        [if fn.contains ((pySorted allSyms).get ⟨i, hi⟩).2.2 then 0x12 else 0x11] ++ [0] ++
        packLE 2 1) ++
      (packLE 8 ((pySorted allSyms).get ⟨i, hi⟩).1 ++
        packLE 8 ((pySorted allSyms).get ⟨i, hi⟩).2.1) := by
    simp [symRecord]
  have h4 : (packLE 4 (assocGet offs ((pySorted allSyms).get ⟨i, hi⟩).2.2) ++
      [if fn.contains ((pySorted allSyms).get ⟨i, hi⟩).2.2 then 0x12 else 0x11] ++ [0] ++
      packLE 2 1).length = 8 := by
    simp [length_packLE]
  rw [h3, List.append_assoc, List.drop_left' h4, List.append_assoc,
    List.take_left' (length_packLE 8 _)]

/-- C7: the emitted symbol table starts with one all-zero 24-byte sentinel
record, holds exactly one 24-byte record per retained symbol (the record
sequence is a permutation of the input), and the addresses decoded from
the records appear in nondecreasing order whatever the input order was. -/
theorem C7_symtab_sentinel_sorted :
    ∀ symbols dataSymbols : List Sym,
      (∀ s ∈ symbols ++ dataSymbols, s.1 < 2 ^ 64) →
      (buildSymtab symbols dataSymbols).length =
        24 * ((symbols ++ dataSymbols).length + 1) ∧
      sliceN (buildSymtab symbols dataSymbols) 0 24 = List.replicate 24 0 ∧
      (pySorted (symbols ++ dataSymbols)).Perm (symbols ++ dataSymbols) ∧
      List.Sorted (· ≤ ·)
        ((List.range (symbols ++ dataSymbols).length).map fun i =>
          leVal (sliceN (buildSymtab symbols dataSymbols) (24 * (i + 1) + 8) 8)) := by
  intro symbols dataSymbols hbound
  set allSyms := symbols ++ dataSymbols with hall
  have hperm := pySorted_perm allSyms
  have hlen : (pySorted allSyms).length = allSyms.length := hperm.length_eq
  have hf : ∀ s, (symRecord (strOffsets allSyms) (symbols.map (fun s => s.2.2)) s).length = 24 :=
    symRecord_length _ _
  refine ⟨?_, ?_, hperm, ?_⟩
  · show (List.replicate 24 0 ++ (pySorted allSyms).flatMap _).length = _
    rw [List.length_append, List.length_replicate, flatMap_const_length _ hf, hlen]
    ring
  · show (List.replicate 24 0 ++ (pySorted allSyms).flatMap _).take 24 = _
    rw [List.take_left' (by simp)]
  · have hdecode : ((List.range allSyms.length).map fun i =>
        leVal (sliceN (buildSymtab symbols dataSymbols) (24 * (i + 1) + 8) 8)) =
        (pySorted allSyms).map (fun s => s.1) := by
      apply List.ext_getElem
      · simp [hlen]
      · intro i h1 h2
        have hi : i < (pySorted allSyms).length := by simpa using h2
        simp only [List.getElem_map, List.getElem_range]
        rw [symtab_addr_slice symbols dataSymbols i hi, leVal_packLE]
        have hmem : (pySorted allSyms).get ⟨i, hi⟩ ∈ allSyms :=
          hperm.subset (List.get_mem _ _ hi)
        exact Nat.mod_eq_of_lt (hbound _ hmem)
    rw [hdecode]
    exact List.Pairwise.map _ (fun a b h => symLeP_fst_le h) (pySorted_sorted allSyms)

/-- C7 witness: the layout facts at a concrete two-symbol input given in
discovery order opposite to address order. -/
theorem C7_symtab_witness :
    (buildSymtab [(0x20, 0, [98]), (0x10, 0, [97])] []).length = 24 * 3 ∧
    sliceN (buildSymtab [(0x20, 0, [98]), (0x10, 0, [97])] []) 0 24 =
      List.replicate 24 0 ∧
    (pySorted ([(0x20, 0, [98]), (0x10, 0, [97])] ++ [])).Perm
      ([(0x20, 0, [98]), (0x10, 0, [97])] ++ []) ∧
    List.Sorted (· ≤ ·)
      ((List.range ([((0x20 : Nat), (0 : Nat), ([98] : Name)), (0x10, 0, [97])] ++ []).length).map fun i =>
        leVal (sliceN (buildSymtab [(0x20, 0, [98]), (0x10, 0, [97])] []) (24 * (i + 1) + 8) 8)) := by
  have h := C7_symtab_sentinel_sorted [(0x20, 0, [98]), (0x10, 0, [97])] [] (by decide)
  simpa using h

/-- Helper: the public pass only appends; seed lists pass through in
front of what the pass itself retains. -/
theorem processPubs_append :
    ∀ (pubs : List PubRec) (existing : List Name) (syms datas : List Sym),
      processPubs pubs existing syms datas =
        (syms ++ (processPubs pubs existing [] []).1,
         datas ++ (processPubs pubs existing [] []).2) := by
  intro pubs
  induction pubs with
  | nil => intro existing syms datas; simp [processPubs]
  | cons p rest ih =>
      intro existing syms datas
      obtain ⟨n, a?⟩ := p
      by_cases h1 : n ∈ existing
      · simp only [processPubs, if_pos h1]
        exact ih existing syms datas
      · by_cases h2 : strStrName.isPrefixOf n || unwindName.isPrefixOf n
        · simp only [processPubs, if_neg h1, if_pos h2]
          exact ih existing syms datas
        · cases a? with
          | none =>
              simp only [processPubs, if_neg h1, if_neg h2]
              exact ih existing syms datas
          | some a =>
              by_cases h3 : jitDescName.isPrefixOf n || gName.isPrefixOf n
              · simp only [processPubs, if_neg h1, if_neg h2, if_pos h3, List.nil_append]
                rw [ih (existing ++ [n]) syms (datas ++ [(a, 0, n)]),
                  ih (existing ++ [n]) [] [(a, 0, n)]]
                simp
              · simp only [processPubs, if_neg h1, if_neg h2, if_neg h3, List.nil_append]
                rw [ih (existing ++ [n]) (syms ++ [(a, 0, n)]) datas,
                  ih (existing ++ [n]) [(a, 0, n)] []]
                simp

theorem pubPasses_false_of_marker {n : Name} (a? : Option Nat)
    (h : (strStrName.isPrefixOf n || unwindName.isPrefixOf n) = true) :
    pubPasses (n, a?) = false := by
  rcases Bool.or_eq_true _ _ |>.mp h with h | h <;> simp [pubPasses, h]

theorem pubPasses_none (n : Name) : pubPasses (n, none) = false := by
  simp [pubPasses]

theorem pubPasses_some {n : Name} (a : Nat)
    (h : ¬ (strStrName.isPrefixOf n || unwindName.isPrefixOf n) = true) :
    pubPasses (n, some a) = true := by
  simp only [Bool.or_eq_true, not_or, Bool.not_eq_true] at h
  simp [pubPasses, h.1, h.2]

/-- Helper: what the public pass itself retains has pairwise-distinct
names, names not in the seed set, size zero, and comes from the first
record of that name that cleared the static filters. -/
theorem processPubs_inv (pubs : List PubRec) :
    ∀ existing : List Name,
      ((((processPubs pubs existing [] []).1 ++ (processPubs pubs existing [] []).2).map
        (fun s => s.2.2)).Nodup) ∧
      (∀ n, n ∈ ((processPubs pubs existing [] []).1 ++
          (processPubs pubs existing [] []).2).map (fun s => s.2.2) → n ∉ existing) ∧
      (∀ e ∈ (processPubs pubs existing [] []).1 ++ (processPubs pubs existing [] []).2,
        e.2.1 = 0 ∧
        List.find? (fun p => p.1 == e.2.2 && pubPasses p) pubs = some (e.2.2, some e.1)) := by
  induction pubs with
  | nil =>
      intro existing
      refine ⟨by simp [processPubs], by simp [processPubs], by simp [processPubs]⟩
  | cons p rest ih =>
      intro existing
      obtain ⟨n, a?⟩ := p
      by_cases h1 : n ∈ existing
      · obtain ⟨ihN, ihF, ihW⟩ := ih existing
        simp only [processPubs, if_pos h1]
        refine ⟨ihN, ihF, fun e he => ⟨(ihW e he).1, ?_⟩⟩
        have hne : (n == e.2.2) = false := by
          have : e.2.2 ≠ n := fun h => (ihF e.2.2 (List.mem_map_of_mem _ he)) (h ▸ h1)
          simpa using fun hc => this hc.symm
        rw [List.find?_cons_of_neg _ (by simp [hne]), (ihW e he).2]
      · by_cases h2 : (strStrName.isPrefixOf n || unwindName.isPrefixOf n) = true
        · obtain ⟨ihN, ihF, ihW⟩ := ih existing
          simp only [processPubs, if_neg h1, if_pos h2]
          refine ⟨ihN, ihF, fun e he => ⟨(ihW e he).1, ?_⟩⟩
          rw [List.find?_cons_of_neg _ (by simp [pubPasses_false_of_marker a? h2]),
            (ihW e he).2]
        · cases a? with
          | none =>
              obtain ⟨ihN, ihF, ihW⟩ := ih existing
              simp only [processPubs, if_neg h1, if_neg h2]
              refine ⟨ihN, ihF, fun e he => ⟨(ihW e he).1, ?_⟩⟩
              rw [List.find?_cons_of_neg _ (by simp [pubPasses_none]), (ihW e he).2]
          | some a =>
              obtain ⟨ihN, ihF, ihW⟩ := ih (existing ++ [n])
              have hfresh : ∀ m, m ∈ ((processPubs rest (existing ++ [n]) [] []).1 ++
                  (processPubs rest (existing ++ [n]) [] []).2).map (fun s => s.2.2) →
                  m ≠ n := by
                intro m hm hmn
                exact (ihF m hm) (by simp [hmn])
              have hpass : pubPasses (n, some a) = true := pubPasses_some a h2
              have hheadW : ∀ e : Sym, e = (a, 0, n) →
                  e.2.1 = 0 ∧ List.find? (fun p => p.1 == e.2.2 && pubPasses p)
                    ((n, some a) :: rest) = some (e.2.2, some e.1) := by
                rintro e rfl
                exact ⟨rfl, by rw [List.find?_cons_of_pos _ (by simp [hpass])]⟩
              have htailW : ∀ e, e ∈ (processPubs rest (existing ++ [n]) [] []).1 ++
                  (processPubs rest (existing ++ [n]) [] []).2 →
                  e.2.1 = 0 ∧ List.find? (fun p => p.1 == e.2.2 && pubPasses p)
                    ((n, some a) :: rest) = some (e.2.2, some e.1) := by
                intro e he
                have hne : (n == e.2.2) = false := by
                  have := hfresh e.2.2 (List.mem_map_of_mem _ he)
                  simpa using fun hc => this hc.symm
                exact ⟨(ihW e he).1,
                  by rw [List.find?_cons_of_neg _ (by simp [hne]), (ihW e he).2]⟩
              have hFset : ∀ m, m ∈ ((processPubs rest (existing ++ [n]) [] []).1 ++
                  (processPubs rest (existing ++ [n]) [] []).2).map (fun s => s.2.2) →
                  m ∉ existing := by
                intro m hm hmem
                exact (ihF m hm) (by simp [hmem])
              by_cases h3 : (jitDescName.isPrefixOf n || gName.isPrefixOf n) = true
              · simp only [processPubs, if_neg h1, if_neg h2, if_pos h3, List.nil_append]
                rw [processPubs_append rest (existing ++ [n]) [] [(a, 0, n)]]
                simp only [List.nil_append, List.singleton_append]
                refine ⟨?_, ?_, ?_⟩
                · have : ((processPubs rest (existing ++ [n]) [] []).1 ++
                      (a, 0, n) :: (processPubs rest (existing ++ [n]) [] []).2).map
                      (fun s => s.2.2) =
                      ((processPubs rest (existing ++ [n]) [] []).1).map (fun s => s.2.2) ++
                      n :: ((processPubs rest (existing ++ [n]) [] []).2).map
                        (fun s => s.2.2) := by simp
                  rw [this, List.nodup_middle]
                  refine List.Nodup.cons ?_ (by simpa using ihN)
                  intro hc
                  have := hfresh n (by simpa using hc)
                  exact this rfl
                · intro m hm
                  have : m = n ∨ m ∈ ((processPubs rest (existing ++ [n]) [] []).1 ++
                      (processPubs rest (existing ++ [n]) [] []).2).map (fun s => s.2.2) := by
                    simp only [List.map_append, List.map_cons, List.mem_append,
                      List.mem_cons] at hm ⊢
                    tauto
                  rcases this with rfl | hm2
                  · exact h1
                  · exact hFset m hm2
                · intro e he
                  have : e = (a, 0, n) ∨ e ∈ (processPubs rest (existing ++ [n]) [] []).1 ++
                      (processPubs rest (existing ++ [n]) [] []).2 := by
                    simp only [List.mem_append, List.mem_cons] at he ⊢
                    tauto
                  rcases this with rfl | he2
                  · exact hheadW _ rfl
                  · exact htailW e he2
              · simp only [processPubs, if_neg h1, if_neg h2, if_neg h3, List.nil_append]
                rw [processPubs_append rest (existing ++ [n]) [(a, 0, n)] []]
                simp only [List.nil_append, List.singleton_append, List.cons_append]
                refine ⟨?_, ?_, ?_⟩
                · simp only [List.map_cons]
                  refine List.Nodup.cons ?_ (by simpa using ihN)
                  intro hc
                  exact hfresh n (by simpa using hc) rfl
                · intro m hm
                  rcases (by simpa using hm :
                      m = n ∨ m ∈ ((processPubs rest (existing ++ [n]) [] []).1 ++
                        (processPubs rest (existing ++ [n]) [] []).2).map
                          (fun s => s.2.2)) with rfl | hm2
                  · exact h1
                  · exact hFset m hm2
                · intro e he
                  rcases (by simpa using he :
                      e = (a, 0, n) ∨ e ∈ (processPubs rest (existing ++ [n]) [] []).1 ++
                        (processPubs rest (existing ++ [n]) [] []).2) with rfl | he2
                  · exact hheadW _ rfl
                  · exact htailW e he2

/-- C6, counterexample: two primary-pass records sharing the name `a`
are both retained, the emitted name sequence has a duplicate, and the
string table carries the name twice — the later duplicate is neither
dropped nor does it overwrite the record list. -/
theorem C6_counterexample :
    (allSymbolsOf (collectSymbols [(0x10, 1, [97]), (0x20, 2, [97])] [] [])).map
      (fun s => s.2.2) = [[97], [97]] ∧
    ¬ ((allSymbolsOf (collectSymbols [(0x10, 1, [97]), (0x20, 2, [97])] [] [])).map
      (fun s => s.2.2)).Nodup ∧
    strtabBytes (allSymbolsOf (collectSymbols [(0x10, 1, [97]), (0x20, 2, [97])] [] [])) =
      [0, 97, 0, 97, 0] := by
  refine ⟨by decide, by decide, by decide⟩

/-- C6, amended: name deduplication with first occurrence winning applies
only to the public-symbol pass.  The primary pass is never deduplicated
(with no public records the collected lists are exactly the primary
lists, duplicates included); every symbol the public pass retains has a
name distinct from the seed names and from every other retained name,
has size zero, and carries the address of the first public record of its
name that cleared the static filters. -/
theorem C6_dedup_first_wins_public_pass_only :
    (∀ (procs gdatas : List Sym) (pubs : List PubRec),
      collectSymbols procs gdatas pubs =
        (procs ++ (processPubs pubs
            (procs.map (fun s => s.2.2) ++ gdatas.map (fun s => s.2.2)) [] []).1,
         gdatas ++ (processPubs pubs
            (procs.map (fun s => s.2.2) ++ gdatas.map (fun s => s.2.2)) [] []).2)) ∧
    (∀ (procs gdatas : List Sym), collectSymbols procs gdatas [] = (procs, gdatas)) ∧
    (∀ (pubs : List PubRec) (existing : List Name),
      ((((processPubs pubs existing [] []).1 ++ (processPubs pubs existing [] []).2).map
        (fun s => s.2.2)).Nodup) ∧
      (∀ n, n ∈ ((processPubs pubs existing [] []).1 ++
          (processPubs pubs existing [] []).2).map (fun s => s.2.2) → n ∉ existing) ∧
      (∀ e ∈ (processPubs pubs existing [] []).1 ++ (processPubs pubs existing [] []).2,
        e.2.1 = 0 ∧
        List.find? (fun p => p.1 == e.2.2 && pubPasses p) pubs = some (e.2.2, some e.1))) :=
  ⟨fun procs gdatas pubs => processPubs_append pubs _ procs gdatas,
   fun _ _ => rfl,
   fun pubs existing => processPubs_inv pubs existing⟩

/-- C6 witness: the public-pass behaviour at a concrete input — the name
`a` already seeded is dropped, the two records named `b` collapse to the
first that cleared the filters, and the retained entry is fresh. -/
theorem C6_dedup_witness :
    ((98 : Nat), (0 : Nat), ([98] : Name)).2.1 = 0 ∧
    List.find? (fun p => p.1 == [98] && pubPasses p)
      [([97], some 5), ([98], none), ([98], some 98), ([98], some 99)] =
      some ([98], some 98) := by
  have h := (C6_dedup_first_wins_public_pass_only.2.2
    [([97], some 5), ([98], none), ([98], some 98), ([98], some 99)] [[97]]).2.2
    (98, 0, [98]) (by decide)
  exact h

/-! ### Walker termination and traversal discipline (C4) -/

/-- Helper: a duplicate-free list of naturals inside the plausible
address window is no longer than the window. -/
theorem nodup_window_length_le (l : List Nat) (hnd : l.Nodup)
    (hw : ∀ a ∈ l, 0x10000 ≤ a ∧ a ≤ 0xFFFFFFFFFFFF) :
    l.length ≤ 0xFFFFFFFF0000 := by
  have hsub : l.toFinset ⊆ Finset.Icc 0x10000 0xFFFFFFFFFFFF := by
    intro a ha
    rcases hw a (List.mem_toFinset.mp ha) with ⟨h1, h2⟩
    exact Finset.mem_Icc.mpr ⟨h1, h2⟩
  have := Finset.card_le_card hsub
  rw [List.toFinset_card_of_nodup hnd, Nat.card_Icc] at this
  omega

/-- Helper: with fuel exceeding the number of window addresses not yet
visited, the walk never reports fuel exhaustion — every iteration
consumes a fresh in-window address. -/
theorem walkAux_ne_outOfFuel (mem : Mem) :
    ∀ (fuel : Nat) (entry : Nat) (visited : List Nat) (st : ScanResult),
      visited.Nodup →
      (∀ a ∈ visited, 0x10000 ≤ a ∧ a ≤ 0xFFFFFFFFFFFF) →
      0xFFFFFFFF0000 + 1 ≤ fuel + visited.length →
      (walkAux mem fuel entry visited st).stopReason ≠ .outOfFuel := by
  intro fuel
  induction fuel with
  | zero =>
      intro entry visited st hnd hw hb
      have := nodup_window_length_le visited hnd hw
      omega
  | succ fuel ih =>
      intro entry visited st hnd hw hb
      by_cases h0 : entry = 0
      · simp [walkAux, h0]
      · by_cases hv : entry ∈ visited
        · simp [walkAux, h0, hv]
        · by_cases hlo : entry < 0x10000
          · simp [walkAux, h0, hv, hlo]
          · by_cases hhi : 0xFFFFFFFFFFFF < entry
            · simp [walkAux, h0, hv, hlo, hhi]
            · cases hread : mem.read entry 32 with
              | none => simp [walkAux, h0, hv, hlo, hhi, hread]
              | some data =>
                  by_cases hlen : data.length = 32
                  · simp only [walkAux, if_neg h0, if_neg hv, if_neg hlo, if_neg hhi,
                      hread, if_pos hlen]
                    exact ih _ _ _
                      (by simp [List.nodup_append, hnd, hv])
                      (by intro a ha
                          rcases List.mem_append.mp ha with h | h
                          · exact hw a h
                          · simp at h
                            omega)
                      (by simp; omega)
                  · simp [walkAux, h0, hv, hlo, hhi, hread, hlen]

/-- Helper: the walk dereferences pairwise-distinct node addresses, all
inside the plausible window. -/
theorem walkAux_trace (mem : Mem) :
    ∀ (fuel : Nat) (entry : Nat) (visited : List Nat) (st : ScanResult),
      st.derefTrace.Nodup →
      (∀ a ∈ st.derefTrace, a ∈ visited) →
      (∀ a ∈ st.derefTrace, 0x10000 ≤ a ∧ a ≤ 0xFFFFFFFFFFFF) →
      ((walkAux mem fuel entry visited st).derefTrace.Nodup ∧
       ∀ a ∈ (walkAux mem fuel entry visited st).derefTrace,
         0x10000 ≤ a ∧ a ≤ 0xFFFFFFFFFFFF) := by
  intro fuel
  induction fuel with
  | zero => intro entry visited st hnd hsub hw; exact ⟨hnd, hw⟩
  | succ fuel ih =>
      intro entry visited st hnd hsub hw
      by_cases h0 : entry = 0
      · have heq : walkAux mem (fuel + 1) entry visited st =
            { st with stopReason := .endOfList } := by
          simp [walkAux, h0]
        rw [heq]
        exact ⟨hnd, hw⟩
      · by_cases hv : entry ∈ visited
        · have heq : walkAux mem (fuel + 1) entry visited st =
              { st with stopReason := .cycleDetected entry } := by
            simp [walkAux, h0, hv]
          rw [heq]
          exact ⟨hnd, hw⟩
        · have hnd2 : (st.derefTrace ++ [entry]).Nodup := by
            rw [List.nodup_append]
            refine ⟨hnd, List.nodup_singleton entry, ?_⟩
            intro a ha hb
            simp only [List.mem_singleton] at hb
            exact hv (hb ▸ hsub a ha)
          have hsub2 : ∀ a ∈ st.derefTrace ++ [entry], a ∈ visited ++ [entry] := by
            intro a ha
            rcases List.mem_append.mp ha with h | h
            · exact List.mem_append.mpr (Or.inl (hsub a h))
            · exact List.mem_append.mpr (Or.inr h)
          by_cases hlo : entry < 0x10000
          · have heq : walkAux mem (fuel + 1) entry visited st =
                { st with totalCount := st.totalCount + 1, stopReason := .tooLow entry } := by
              simp [walkAux, h0, hv, hlo]
            rw [heq]
            exact ⟨hnd, hw⟩
          · by_cases hhi : 0xFFFFFFFFFFFF < entry
            · have heq : walkAux mem (fuel + 1) entry visited st =
                  { st with totalCount := st.totalCount + 1,
                            stopReason := .tooHigh entry } := by
                simp [walkAux, h0, hv, hlo, hhi]
              rw [heq]
              exact ⟨hnd, hw⟩
            · have hw2 : ∀ a ∈ st.derefTrace ++ [entry],
                  0x10000 ≤ a ∧ a ≤ 0xFFFFFFFFFFFF := by
                intro a ha
                rcases List.mem_append.mp ha with h | h
                · exact hw a h
                · simp only [List.mem_singleton] at h
                  omega
              cases hread : mem.read entry 32 with
              | none =>
                  have heq : walkAux mem (fuel + 1) entry visited st =
                      { st with totalCount := st.totalCount + 1,
                                derefTrace := st.derefTrace ++ [entry],
                                inaccessibleCount := st.inaccessibleCount + 1,
                                stopReason := .inaccessible entry } := by
                    simp [walkAux, h0, hv, hlo, hhi, hread]
                  rw [heq]
                  exact ⟨hnd2, hw2⟩
              | some data =>
                  by_cases hlen : data.length = 32
                  · by_cases hflt : leVal (sliceN data 16 8) ≠ 0 ∧
                        leVal (sliceN data 24 8) ≠ 0 ∧ leVal (sliceN data 24 8) < 0x100000
                    · have heq : walkAux mem (fuel + 1) entry visited st =
                          walkAux mem fuel (leVal (sliceN data 0 8)) (visited ++ [entry])
                            { st with totalCount := st.totalCount + 1,
                                      derefTrace := st.derefTrace ++ [entry],
                                      nodes := st.nodes ++
                                        [⟨entry, leVal (sliceN data 0 8),
                                          leVal (sliceN data 8 8), leVal (sliceN data 16 8),
                                          leVal (sliceN data 24 8)⟩],
                                      jitSymbols := dictInsert st.jitSymbols
                                        (leVal (sliceN data 16 8))
                                        (mkJitInfo (leVal (sliceN data 16 8))
                                          (leVal (sliceN data 24 8))),
                                      inserts := st.inserts ++
                                        [(leVal (sliceN data 16 8),
                                          leVal (sliceN data 24 8))] } := by
                        simp [walkAux, h0, hv, hlo, hhi, hread, hlen, hflt]
                      rw [heq]
                      exact ih _ _ _ hnd2 hsub2 hw2
                    · have heq : walkAux mem (fuel + 1) entry visited st =
                          walkAux mem fuel (leVal (sliceN data 0 8)) (visited ++ [entry])
                            { st with totalCount := st.totalCount + 1,
                                      derefTrace := st.derefTrace ++ [entry],
                                      nodes := st.nodes ++
                                        [⟨entry, leVal (sliceN data 0 8),
                                          leVal (sliceN data 8 8), leVal (sliceN data 16 8),
                                          leVal (sliceN data 24 8)⟩] } := by
                        simp [walkAux, h0, hv, hlo, hhi, hread, hlen, hflt]
                      rw [heq]
                      exact ih _ _ _ hnd2 hsub2 hw2
                  · have heq : walkAux mem (fuel + 1) entry visited st =
                        { st with totalCount := st.totalCount + 1,
                                  derefTrace := st.derefTrace ++ [entry],
                                  errors := st.errors + 1,
                                  stopReason := .errorAt entry } := by
                      simp [walkAux, h0, hv, hlo, hhi, hread, hlen]
                    rw [heq]
                    exact ⟨hnd2, hw2⟩

/-- C4: the registry scan always terminates with a genuine stop reason
(the fuel bound is never hit); it never dereferences the same node
address twice in one scan; it only ever dereferences addresses inside
the plausible window, stopping on out-of-window pointers instead; on an
empty registry it reports zero entries with the null-pointer reason; and
on a concrete cyclic two-node list it stops reporting the cycle. -/
theorem C4_scan_terminates_guarded :
    (∀ mem : Mem, (scanJitList mem).stopReason ≠ .outOfFuel) ∧
    (∀ mem : Mem, (scanJitList mem).derefTrace.Nodup) ∧
    (∀ mem : Mem, ∀ a ∈ (scanJitList mem).derefTrace,
      0x10000 ≤ a ∧ a ≤ 0xFFFFFFFFFFFF) ∧
    (∀ (mem : Mem) (da : Nat) (d : List Nat),
      mem.descAddr = some da → mem.read da 24 = some d → d.length = 24 →
      leVal (sliceN d 16 8) = 0 →
      (scanJitList mem).jitSymbols = [] ∧
        (scanJitList mem).stopReason = .firstEntryNull ∧ scanCount mem = 0) ∧
    ((scanJitList cycMem).stopReason = .cycleDetected 0x20000 ∧
      (scanJitList lowPtrMem).stopReason = .tooLow 0x100 ∧
      (scanJitList lowPtrMem).derefTrace = []) := by
  have hscan : ∀ mem : Mem, (scanJitList mem).stopReason ≠ .outOfFuel ∧
      (scanJitList mem).derefTrace.Nodup ∧
      (∀ a ∈ (scanJitList mem).derefTrace, 0x10000 ≤ a ∧ a ≤ 0xFFFFFFFFFFFF) := by
    intro mem
    cases hda : mem.descAddr with
    | none => simp [scanJitList, hda, emptyScan]
    | some da =>
        cases hd : mem.read da 24 with
        | none => simp [scanJitList, hda, hd, emptyScan]
        | some d =>
            by_cases hlen : d.length = 24
            · by_cases hfe : leVal (sliceN d 16 8) = 0
              · simp [scanJitList, hda, hd, hlen, hfe, emptyScan]
              · have hred : scanJitList mem =
                    walkAux mem scanFuel (leVal (sliceN d 16 8)) [] emptyScan := by
                  simp [scanJitList, hda, hd, hlen, hfe]
                rw [hred]
                refine ⟨walkAux_ne_outOfFuel mem scanFuel _ [] emptyScan
                  (by simp) (by simp) (by simp [scanFuel, emptyScan]), ?_, ?_⟩
                · exact (walkAux_trace mem scanFuel _ [] emptyScan
                    (by simp [emptyScan]) (by simp [emptyScan]) (by simp [emptyScan])).1
                · exact (walkAux_trace mem scanFuel _ [] emptyScan
                    (by simp [emptyScan]) (by simp [emptyScan]) (by simp [emptyScan])).2
            · simp [scanJitList, hda, hd, hlen, emptyScan]
  refine ⟨fun mem => (hscan mem).1, fun mem => (hscan mem).2.1,
    fun mem => (hscan mem).2.2, ?_, ?_, ?_, ?_⟩
  · intro mem da d hda hd hlen hfe
    refine ⟨?_, ?_, ?_⟩ <;> simp [scanJitList, scanCount, hda, hd, hlen, hfe, emptyScan]
  · decide
  · decide
  · decide

/-- C4 witness: the guarded-traversal facts at concrete channels — the
cyclic registry stops with the cycle report and a duplicate-free
dereference trace, and an empty registry yields zero entries. -/
theorem C4_scan_witness :
    (scanJitList cycMem).derefTrace.Nodup ∧
    (scanJitList nullListMem).jitSymbols = [] ∧
    (scanJitList nullListMem).stopReason = .firstEntryNull ∧
    scanCount nullListMem = 0 := by
  refine ⟨C4_scan_terminates_guarded.2.1 cycMem, ?_⟩
  have h := C4_scan_terminates_guarded.2.2.2.1 nullListMem 0x40000
    (List.replicate 24 0) (by rfl) (by rfl) (by decide) (by decide)
  exact h

/-! ### Dict lemmas and the scan-set invariant (C3, C5, C10) -/

theorem dictKeys_dictInsert (d : List (Nat × JitInfo)) (k : Nat) (v : JitInfo) :
    dictKeys (dictInsert d k v) =
      if k ∈ dictKeys d then dictKeys d else dictKeys d ++ [k] := by
  induction d with
  | nil => simp [dictInsert, dictKeys]
  | cons p rest ih =>
      by_cases hp : p.1 = k
      · simp [dictInsert, dictKeys, hp]
      · rw [show dictInsert (p :: rest) k v = p :: dictInsert rest k v from by
            simp [dictInsert, hp],
          show dictKeys (p :: dictInsert rest k v) = p.1 :: dictKeys (dictInsert rest k v)
            from rfl,
          ih,
          show dictKeys (p :: rest) = p.1 :: dictKeys rest from rfl]
        by_cases hk : k ∈ dictKeys rest
        · rw [if_pos hk, if_pos (List.mem_cons.mpr (Or.inr hk))]
        · rw [if_neg hk, if_neg ?hnotin]
          · simp
          case hnotin =>
            intro hmem
            rcases List.mem_cons.mp hmem with h | h
            · exact hp h.symm
            · exact hk h

theorem mem_dictKeys_dictInsert (a : Nat) (d : List (Nat × JitInfo)) (k : Nat)
    (v : JitInfo) :
    a ∈ dictKeys (dictInsert d k v) ↔ a ∈ dictKeys d ∨ a = k := by
  rw [dictKeys_dictInsert]
  by_cases hk : k ∈ dictKeys d
  · rw [if_pos hk]
    constructor
    · exact Or.inl
    · rintro (h | rfl)
      · exact h
      · exact hk
  · rw [if_neg hk]
    simp

theorem nodup_dictKeys_dictInsert (d : List (Nat × JitInfo)) (k : Nat) (v : JitInfo)
    (h : (dictKeys d).Nodup) : (dictKeys (dictInsert d k v)).Nodup := by
  rw [dictKeys_dictInsert]
  by_cases hk : k ∈ dictKeys d
  · rwa [if_pos hk]
  · rw [if_neg hk, List.nodup_append]
    refine ⟨h, List.nodup_singleton k, ?_⟩
    intro a ha hb
    rw [List.mem_singleton] at hb
    exact hk (hb ▸ ha)

theorem dictFind_dictInsert (d : List (Nat × JitInfo)) (k : Nat) (v : JitInfo) (a : Nat) :
    dictFind (dictInsert d k v) a = if a = k then some v else dictFind d a := by
  induction d with
  | nil =>
      by_cases ha : a = k
      · simp [dictInsert, dictFind, ha]
      · have hka : (k == a) = false := by
          simp only [beq_eq_false_iff_ne]
          exact fun h => ha h.symm
        simp [dictInsert, dictFind, hka, ha]
  | cons p rest ih =>
      by_cases hp : p.1 = k
      · rw [show dictInsert (p :: rest) k v = (k, v) :: rest from by simp [dictInsert, hp]]
        by_cases ha : a = k
        · rw [if_pos ha]
          unfold dictFind
          rw [List.find?_cons_of_pos _ (by simp [ha])]
          rfl
        · rw [if_neg ha]
          unfold dictFind
          rw [List.find?_cons_of_neg _ (by simp; exact fun h => ha h.symm),
            List.find?_cons_of_neg _ (by simp [hp]; exact fun h => ha h.symm)]
      · rw [show dictInsert (p :: rest) k v = p :: dictInsert rest k v from by
            simp [dictInsert, hp]]
        by_cases hpa : p.1 = a
        · have ha : ¬ a = k := fun h => hp (by rw [hpa, h])
          rw [if_neg ha]
          unfold dictFind
          rw [List.find?_cons_of_pos _ (by simp [hpa]),
            List.find?_cons_of_pos _ (by simp [hpa])]
        · rw [show dictFind (p :: dictInsert rest k v) a = dictFind (dictInsert rest k v) a
              from by unfold dictFind; rw [List.find?_cons_of_neg _ (by simp [hpa])],
            show dictFind (p :: rest) a = dictFind rest a from by
              unfold dictFind; rw [List.find?_cons_of_neg _ (by simp [hpa])]]
          exact ih

/-- Helper: along the walk, the entry dict is keyed exactly by the
blob addresses inserted so far (which are the filtered node blobs), with
duplicate-free keys and, per key, the info of the latest insertion. -/
theorem walkAux_inv (mem : Mem) :
    ∀ (fuel entry : Nat) (visited : List Nat) (st : ScanResult),
      st.inserts = st.nodes.filterMap nodeFilter →
      (dictKeys st.jitSymbols).Nodup →
      (∀ a, a ∈ dictKeys st.jitSymbols ↔ a ∈ st.inserts.map Prod.fst) →
      (∀ a, dictFind st.jitSymbols a =
        ((st.inserts.filter (fun p => p.1 == a)).getLast?).map
          (fun p => mkJitInfo p.1 p.2)) →
      ((walkAux mem fuel entry visited st).inserts =
        (walkAux mem fuel entry visited st).nodes.filterMap nodeFilter ∧
       (dictKeys (walkAux mem fuel entry visited st).jitSymbols).Nodup ∧
       (∀ a, a ∈ dictKeys (walkAux mem fuel entry visited st).jitSymbols ↔
         a ∈ (walkAux mem fuel entry visited st).inserts.map Prod.fst) ∧
       (∀ a, dictFind (walkAux mem fuel entry visited st).jitSymbols a =
         (((walkAux mem fuel entry visited st).inserts.filter
           (fun p => p.1 == a)).getLast?).map (fun p => mkJitInfo p.1 p.2))) := by
  intro fuel
  induction fuel with
  | zero => intro entry visited st h1 h2 h3 h4; exact ⟨h1, h2, h3, h4⟩
  | succ fuel ih =>
      intro entry visited st h1 h2 h3 h4
      by_cases h0 : entry = 0
      · have heq : walkAux mem (fuel + 1) entry visited st =
            { st with stopReason := .endOfList } := by
          simp [walkAux, h0]
        rw [heq]
        exact ⟨h1, h2, h3, h4⟩
      · by_cases hv : entry ∈ visited
        · have heq : walkAux mem (fuel + 1) entry visited st =
              { st with stopReason := .cycleDetected entry } := by
            simp [walkAux, h0, hv]
          rw [heq]
          exact ⟨h1, h2, h3, h4⟩
        · by_cases hlo : entry < 0x10000
          · have heq : walkAux mem (fuel + 1) entry visited st =
                { st with totalCount := st.totalCount + 1,
                          stopReason := .tooLow entry } := by
              simp [walkAux, h0, hv, hlo]
            rw [heq]
            exact ⟨h1, h2, h3, h4⟩
          · by_cases hhi : 0xFFFFFFFFFFFF < entry
            · have heq : walkAux mem (fuel + 1) entry visited st =
                  { st with totalCount := st.totalCount + 1,
                            stopReason := .tooHigh entry } := by
                simp [walkAux, h0, hv, hlo, hhi]
              rw [heq]
              exact ⟨h1, h2, h3, h4⟩
            · cases hread : mem.read entry 32 with
              | none =>
                  have heq : walkAux mem (fuel + 1) entry visited st =
                      { st with totalCount := st.totalCount + 1,
                                derefTrace := st.derefTrace ++ [entry],
                                inaccessibleCount := st.inaccessibleCount + 1,
                                stopReason := .inaccessible entry } := by
                    simp [walkAux, h0, hv, hlo, hhi, hread]
                  rw [heq]
                  exact ⟨h1, h2, h3, h4⟩
              | some data =>
                  by_cases hlen : data.length = 32
                  · by_cases hflt : leVal (sliceN data 16 8) ≠ 0 ∧
                        leVal (sliceN data 24 8) ≠ 0 ∧ leVal (sliceN data 24 8) < 0x100000
                    · have heq : walkAux mem (fuel + 1) entry visited st =
                          walkAux mem fuel (leVal (sliceN data 0 8)) (visited ++ [entry])
                            { st with totalCount := st.totalCount + 1,
                                      derefTrace := st.derefTrace ++ [entry],
                                      nodes := st.nodes ++
                                        [⟨entry, leVal (sliceN data 0 8),
                                          leVal (sliceN data 8 8), leVal (sliceN data 16 8),
                                          leVal (sliceN data 24 8)⟩],
                                      jitSymbols := dictInsert st.jitSymbols
                                        (leVal (sliceN data 16 8))
                                        (mkJitInfo (leVal (sliceN data 16 8))
                                          (leVal (sliceN data 24 8))),
                                      inserts := st.inserts ++
                                        [(leVal (sliceN data 16 8),
                                          leVal (sliceN data 24 8))] } := by
                        simp [walkAux, h0, hv, hlo, hhi, hread, hlen, hflt]
                      rw [heq]
                      apply ih
                      · show st.inserts ++ [(leVal (sliceN data 16 8), leVal (sliceN data 24 8))] =
                          (st.nodes ++ ([⟨entry, leVal (sliceN data 0 8), leVal (sliceN data 8 8),
                            leVal (sliceN data 16 8), leVal (sliceN data 24 8)⟩] :
                            List NodeRec)).filterMap nodeFilter
                        rw [List.filterMap_append, ← h1]
                        congr 1
                        simp [nodeFilter, hflt.1, hflt.2.1, hflt.2.2]
                      · exact nodup_dictKeys_dictInsert _ _ _ h2
                      · intro a
                        rw [mem_dictKeys_dictInsert]
                        show _ ↔ a ∈ (st.inserts ++ [(leVal (sliceN data 16 8),
                          leVal (sliceN data 24 8))]).map Prod.fst
                        rw [List.map_append, List.mem_append, h3 a]
                        simp
                      · intro a
                        rw [dictFind_dictInsert]
                        show _ = (((st.inserts ++ [(leVal (sliceN data 16 8),
                          leVal (sliceN data 24 8))]).filter
                            (fun p => p.1 == a)).getLast?).map (fun p => mkJitInfo p.1 p.2)
                        rw [List.filter_append]
                        by_cases ha : a = leVal (sliceN data 16 8)
                        · rw [if_pos ha]
                          have : (([(leVal (sliceN data 16 8), leVal (sliceN data 24 8))] :
                              List (Nat × Nat)).filter (fun p => p.1 == a)) =
                              [(leVal (sliceN data 16 8), leVal (sliceN data 24 8))] := by
                            simp [ha]
                          rw [this, List.getLast?_concat]
                          simp [ha]
                        · rw [if_neg ha]
                          have : (([(leVal (sliceN data 16 8), leVal (sliceN data 24 8))] :
                              List (Nat × Nat)).filter (fun p => p.1 == a)) = [] := by
                            simp
                            exact fun h => ha h.symm
                          rw [this, List.append_nil]
                          exact h4 a
                    · have heq : walkAux mem (fuel + 1) entry visited st =
                          walkAux mem fuel (leVal (sliceN data 0 8)) (visited ++ [entry])
                            { st with totalCount := st.totalCount + 1,
                                      derefTrace := st.derefTrace ++ [entry],
                                      nodes := st.nodes ++
                                        [⟨entry, leVal (sliceN data 0 8),
                                          leVal (sliceN data 8 8), leVal (sliceN data 16 8),
                                          leVal (sliceN data 24 8)⟩] } := by
                        simp [walkAux, h0, hv, hlo, hhi, hread, hlen, hflt]
                      rw [heq]
                      apply ih
                      · show st.inserts = (st.nodes ++ ([⟨entry, leVal (sliceN data 0 8),
                          leVal (sliceN data 8 8), leVal (sliceN data 16 8),
                          leVal (sliceN data 24 8)⟩] : List NodeRec)).filterMap nodeFilter
                        rw [List.filterMap_append, h1]
                        have : (([⟨entry, leVal (sliceN data 0 8), leVal (sliceN data 8 8),
                            leVal (sliceN data 16 8), leVal (sliceN data 24 8)⟩] :
                            List NodeRec).filterMap nodeFilter) = [] := by
                          simp [nodeFilter, hflt]
                        rw [this, List.append_nil]
                      · exact h2
                      · exact h3
                      · exact h4
                  · have heq : walkAux mem (fuel + 1) entry visited st =
                        { st with totalCount := st.totalCount + 1,
                                  derefTrace := st.derefTrace ++ [entry],
                                  errors := st.errors + 1,
                                  stopReason := .errorAt entry } := by
                      simp [walkAux, h0, hv, hlo, hhi, hread, hlen]
                    rw [heq]
                    exact ⟨h1, h2, h3, h4⟩

/-- Helper: the scan-set invariant holds of every completed scan. -/
theorem scanJitList_inv (mem : Mem) :
    (scanJitList mem).inserts = (scanJitList mem).nodes.filterMap nodeFilter ∧
    (dictKeys (scanJitList mem).jitSymbols).Nodup ∧
    (∀ a, a ∈ dictKeys (scanJitList mem).jitSymbols ↔
      a ∈ (scanJitList mem).inserts.map Prod.fst) ∧
    (∀ a, dictFind (scanJitList mem).jitSymbols a =
      (((scanJitList mem).inserts.filter (fun p => p.1 == a)).getLast?).map
        (fun p => mkJitInfo p.1 p.2)) := by
  cases hda : mem.descAddr with
  | none => simp [scanJitList, hda, emptyScan, dictKeys, dictFind]
  | some da =>
      cases hd : mem.read da 24 with
      | none => simp [scanJitList, hda, hd, emptyScan, dictKeys, dictFind]
      | some d =>
          by_cases hlen : d.length = 24
          · by_cases hfe : leVal (sliceN d 16 8) = 0
            · simp [scanJitList, hda, hd, hlen, hfe, emptyScan, dictKeys, dictFind]
            · have hred : scanJitList mem =
                  walkAux mem scanFuel (leVal (sliceN d 16 8)) [] emptyScan := by
                simp [scanJitList, hda, hd, hlen, hfe]
              rw [hred]
              exact walkAux_inv mem scanFuel _ [] emptyScan (by simp [emptyScan])
                (by simp [emptyScan, dictKeys]) (by simp [emptyScan, dictKeys])
                (by simp [emptyScan, dictKeys, dictFind])
          · simp [scanJitList, hda, hd, hlen, emptyScan, dictKeys, dictFind]

/-- C3, counterexample: a traversed node whose blob size 64 is nonzero
and below the ceiling is nevertheless excluded from the entry set,
because its blob address is the null pointer — the claimed size-only
equivalence fails. -/
theorem C3_counterexample :
    (scanJitList zeroBlobAddrMem).nodes = [⟨0x20000, 0, 0, 0, 64⟩] ∧
    (64 : Nat) ≠ 0 ∧ (64 : Nat) < 0x100000 ∧
    (scanJitList zeroBlobAddrMem).jitSymbols = [] := by
  refine ⟨by decide, by decide, by decide, by decide⟩

/-- C3, amended: a blob address is in the resolved entry set exactly when
some traversed node carries it with a nonzero blob address and a blob
size that is nonzero and strictly below 0x100000; nodes failing the
filter are skipped without stopping the walk. -/
theorem C3_entry_set_iff_size_and_addr_filter :
    ∀ (mem : Mem) (a : Nat),
      a ∈ dictKeys (scanJitList mem).jitSymbols ↔
      ∃ n ∈ (scanJitList mem).nodes, n.blobAddr = a ∧ a ≠ 0 ∧
        n.blobSize ≠ 0 ∧ n.blobSize < 0x100000 := by
  intro mem a
  obtain ⟨h1, _, h3, _⟩ := scanJitList_inv mem
  rw [h3 a, h1]
  constructor
  · intro h
    obtain ⟨p, hp, hpa⟩ := List.mem_map.mp h
    obtain ⟨n, hn, hfn⟩ := List.mem_filterMap.mp hp
    unfold nodeFilter at hfn
    by_cases hc : n.blobAddr ≠ 0 ∧ n.blobSize ≠ 0 ∧ n.blobSize < 0x100000
    · rw [if_pos hc] at hfn
      have hpeq : p = (n.blobAddr, n.blobSize) := (Option.some.inj hfn).symm
      subst hpeq
      simp only at hpa
      exact ⟨n, hn, hpa, hpa ▸ hc.1, hc.2.1, hc.2.2⟩
    · rw [if_neg hc] at hfn
      cases hfn
  · rintro ⟨n, hn, rfl, ha0, hs0, hsm⟩
    apply List.mem_map.mpr
    refine ⟨(n.blobAddr, n.blobSize), ?_, rfl⟩
    apply List.mem_filterMap.mpr
    exact ⟨n, hn, by simp [nodeFilter, ha0, hs0, hsm]⟩

/-- C3 witness: membership of a concrete in-filter blob address in the
entry set of a concrete scan. -/
theorem C3_entry_set_witness :
    0x111000 ∈ dictKeys (scanJitList midFailMem).jitSymbols :=
  (C3_entry_set_iff_size_and_addr_filter midFailMem 0x111000).mpr
    ⟨⟨0x20000, 0x30000, 0, 0x111000, 64⟩, by decide, rfl, by decide, by decide, by decide⟩

/-- C5, counterexample: a scan that fails at descriptor evaluation does
not leave the previously published nonempty entry set unmodified — the
set is cleared. -/
theorem C5_counterexample :
    scanPublish prevSetEx noDescMem ≠ prevSetEx ∧
    (scanJitList noDescMem).stopReason = .initError ∧
    scanPublish prevSetEx noDescMem = [] := by
  refine ⟨by decide, by decide, by decide⟩

/-- C5, amended: the set a scan publishes never depends on the
previously published set (it is cleared at scan start), and a scan that
stops early on inaccessible memory publishes the entries collected up to
the failure as a result with an explicit reason. -/
theorem C5_scan_replaces_previous_set :
    (∀ (p₁ p₂ : List (Nat × JitInfo)) (mem : Mem),
      scanPublish p₁ mem = scanPublish p₂ mem) ∧
    ((scanJitList midFailMem).stopReason = .inaccessible 0x30000 ∧
      scanPublish prevSetEx midFailMem = [(0x111000, mkJitInfo 0x111000 64)]) :=
  ⟨fun _ _ _ => rfl, by decide, by decide⟩

/-- C10: the count a completed scan returns is the number of distinct
blob addresses among the filtered traversed nodes — the inserted pairs
are exactly the filter-passing nodes, keys collapse by blob address, and
the stored size per key is that of the latest inserted pair. -/
theorem C10_count_distinct_blobs_last_size_wins :
    ∀ mem : Mem,
      scanCount mem = (((scanJitList mem).inserts.map Prod.fst).dedup).length ∧
      (scanJitList mem).inserts = (scanJitList mem).nodes.filterMap nodeFilter ∧
      (∀ a, dictFind (scanJitList mem).jitSymbols a =
        (((scanJitList mem).inserts.filter (fun p => p.1 == a)).getLast?).map
          (fun p => mkJitInfo p.1 p.2)) := by
  intro mem
  obtain ⟨h1, h2, h3, h4⟩ := scanJitList_inv mem
  refine ⟨?_, h1, h4⟩
  have hset : (dictKeys (scanJitList mem).jitSymbols).toFinset =
      ((scanJitList mem).inserts.map Prod.fst).toFinset := by
    ext x
    simp only [List.mem_toFinset]
    exact h3 x
  calc scanCount mem = (dictKeys (scanJitList mem).jitSymbols).length := by
        simp [scanCount, dictKeys]
    _ = (dictKeys (scanJitList mem).jitSymbols).toFinset.card :=
        (List.toFinset_card_of_nodup h2).symm
    _ = ((scanJitList mem).inserts.map Prod.fst).toFinset.card := by rw [hset]
    _ = (((scanJitList mem).inserts.map Prod.fst).dedup).toFinset.card := by
        congr 1
        ext x
        simp [List.mem_dedup]
    _ = (((scanJitList mem).inserts.map Prod.fst).dedup).length :=
        List.toFinset_card_of_nodup (List.nodup_dedup _)

/-- C10 witness: on the channel with two nodes sharing one blob address,
the count collapses to one and the later size 80 overwrites 64. -/
theorem C10_count_witness :
    scanCount dupBlobMem =
      (((scanJitList dupBlobMem).inserts.map Prod.fst).dedup).length ∧
    dictFind (scanJitList dupBlobMem).jitSymbols 0x111000 =
      some (mkJitInfo 0x111000 80) ∧
    scanCount dupBlobMem = 1 ∧ (scanJitList dupBlobMem).nodes.length = 2 := by
  refine ⟨(C10_count_distinct_blobs_last_size_wins dupBlobMem).1, ?_, by decide, by decide⟩
  rw [(C10_count_distinct_blobs_last_size_wins dupBlobMem).2.2 0x111000]
  decide

/-- C2: whenever the marker read back equals the expected constant, the
connect command publishes exactly `actualBase − preferredImageBase` (a
signed difference), issues exactly one watch-removal command, armed the
watch exactly once, and never arms a watch again after the removal. -/
theorem C2_locate_offset_and_single_disarm :
    ∀ marker actualBase : Nat, marker = GDB_DEBUG_MARKER_VALUE →
      (protonConnect marker actualBase).symbolOffset =
        some ((actualBase : Int) - (PE_IMAGE_BASE : Int)) ∧
      (protonConnect marker actualBase).trace.count GCmd.deleteAll = 1 ∧
      (protonConnect marker actualBase).trace.count GCmd.watchMarker = 1 ∧
      ((protonConnect marker actualBase).trace.dropWhile
        (fun c => !(c == GCmd.deleteAll))).count GCmd.watchMarker = 0 := by
  intro marker actualBase h
  subst h
  exact ⟨rfl, rfl, rfl, rfl⟩

/-- C2 witness: the connect outcome at a concrete marker hit with a base
below the preferred one (negative offset). -/
theorem C2_locate_witness :
    (protonConnect 0xDEADBEEF 0x7FF00000).symbolOffset =
      some ((0x7FF00000 : Int) - (PE_IMAGE_BASE : Int)) ∧
    (protonConnect 0xDEADBEEF 0x7FF00000).trace.count GCmd.deleteAll = 1 ∧
    (protonConnect 0xDEADBEEF 0x7FF00000).trace.count GCmd.watchMarker = 1 ∧
    ((protonConnect 0xDEADBEEF 0x7FF00000).trace.dropWhile
      (fun c => !(c == GCmd.deleteAll))).count GCmd.watchMarker = 0 :=
  C2_locate_offset_and_single_disarm 0xDEADBEEF 0x7FF00000 rfl

/-- C9: once an entry is resolved (its name is set), resolving again
succeeds immediately, reads no target memory, and leaves every field of
the entry unchanged. -/
theorem C9_resolution_cached_idempotent :
    ∀ (mem : Mem) (info : JitInfo) (n : Name), info.name = some n →
      resolveJitSymbol mem info = (true, info, false) := by
  intro mem info n h
  unfold resolveJitSymbol
  rw [h]

/-- C9 witness: re-resolving a concrete already-resolved entry touches
nothing, even on a channel that can read no memory at all. -/
theorem C9_resolution_witness :
    resolveJitSymbol noDescMem ⟨0x500000, 244, false, some [70, 111, 111], some 0x1010⟩ =
      (true, ⟨0x500000, 244, false, some [70, 111, 111], some 0x1010⟩, false) :=
  C9_resolution_cached_idempotent noDescMem _ [70, 111, 111] rfl

/-! ### Resolver failure silence and first-function selection (C8) -/

/-- Helper: with no symbol-table section the first selection slot keeps
its seed. -/
theorem findTables_fst_none :
    ∀ (sections : List (Nat × Nat × Nat)) (sym? : Option (Nat × Nat)) (str? : Option Nat),
      (∀ s ∈ sections, s.1 ≠ 2) → (findTables sections sym? str?).1 = sym? := by
  intro sections
  induction sections with
  | nil => intro sym? str? _; rfl
  | cons h rest ih =>
      intro sym? str? hno
      have hh : h.1 ≠ 2 := hno h (List.mem_cons_self h rest)
      have hrest : ∀ s ∈ rest, s.1 ≠ 2 := fun s hs => hno s (List.mem_cons_of_mem h hs)
      by_cases h3 : h.1 = 3 ∧ str? = none
      · simp only [findTables, if_neg hh, if_pos h3]
        exact ih sym? _ hrest
      · simp only [findTables, if_neg hh, if_neg h3]
        exact ih sym? str? hrest

/-- Helper: with no string-table section the second selection slot keeps
its seed. -/
theorem findTables_snd_none :
    ∀ (sections : List (Nat × Nat × Nat)) (sym? : Option (Nat × Nat)) (str? : Option Nat),
      (∀ s ∈ sections, s.1 ≠ 3) → (findTables sections sym? str?).2 = str? := by
  intro sections
  induction sections with
  | nil => intro sym? str? _; rfl
  | cons h rest ih =>
      intro sym? str? hno
      have hh : h.1 ≠ 3 := hno h (List.mem_cons_self h rest)
      have hrest : ∀ s ∈ rest, s.1 ≠ 3 := fun s hs => hno s (List.mem_cons_of_mem h hs)
      by_cases h2 : h.1 = 2
      · simp only [findTables, if_pos h2]
        exact ih _ str? hrest
      · have h3 : ¬ (h.1 = 3 ∧ str? = none) := fun hc => hh hc.1
        simp only [findTables, if_neg h2, if_neg h3]
        exact ih sym? str? hrest

/-- Helper: a successful symbol sweep found, at some offset below its
budget, the first record with the function type nibble, and read all the
earlier records finding none of function type. -/
theorem findFuncSym_ok (b : List Nat) (soff stroff : Nat) :
    ∀ (k i : Nat) (nm : Name) (v : Nat),
      findFuncSym b soff stroff k i = .ok (some (nm, v)) →
      ∃ d, d < k ∧
        (∃ stName stInfo, readSym b soff (i + d) = some (stName, stInfo, v) ∧
          stInfo % 16 = 2 ∧ nm = readCString b (stroff + stName)) ∧
        (∀ e, e < d → ∃ s, readSym b soff (i + e) = some s ∧ s.2.1 % 16 ≠ 2) := by
  intro k
  induction k with
  | zero =>
      intro i nm v h
      exact absurd h (by simp [findFuncSym])
  | succ k ih =>
      intro i nm v h
      simp only [findFuncSym] at h
      cases hr : readSym b soff i with
      | none => rw [hr] at h; exact absurd h (by simp)
      | some s =>
          obtain ⟨sn, si, sv⟩ := s
          rw [hr] at h
          have h2 : (if si % 16 = 2 then
              Except.ok (some (readCString b (stroff + sn), sv))
            else findFuncSym b soff stroff k (i + 1)) = Except.ok (some (nm, v)) := h
          by_cases ht : si % 16 = 2
          · rw [if_pos ht] at h2
            simp only [Except.ok.injEq, Option.some.injEq, Prod.mk.injEq] at h2
            refine ⟨0, Nat.succ_pos k, ⟨sn, si, ?_, ht, h2.1.symm⟩, ?_⟩
            · rw [Nat.add_zero, hr, h2.2]
            · intro e he
              exact absurd he (Nat.not_lt_zero e)
          · rw [if_neg ht] at h2
            obtain ⟨d, hd, hsym, hprev⟩ := ih (i + 1) nm v h2
            refine ⟨d + 1, by omega, ?_, ?_⟩
            · have harith : i + (d + 1) = (i + 1) + d := by omega
              rw [harith]
              exact hsym
            · intro e he
              cases e with
              | zero =>
                  refine ⟨(sn, si, sv), ?_, ht⟩
                  rw [Nat.add_zero]
                  exact hr
              | succ f =>
                  have harith : i + (f + 1) = (i + 1) + f := by omega
                  rw [harith]
                  exact hprev f (by omega)

/-- C8: resolution fails silently (entry untouched, no escaping error)
when the blob lacks the signature or lacks a symbol-table or
string-table section; and a successful parse returns the value and the
NUL-terminated name of the first function-typed symbol after the
reserved null symbol at index 0, all earlier records being readable and
not function-typed. -/
theorem C8_resolution_silent_failure_first_func :
    (∀ b : List Nat, b.take 4 ≠ elfMagic → parse_elf_symbol b = .ok none) ∧
    (∀ (b : List Nat) (shoff shnum x : Nat) (sections : List (Nat × Nat × Nat)),
      unpackLE b 40 8 = some shoff → unpackLE b 60 2 = some shnum →
      unpackLE b 62 2 = some x → readShdrs b shoff shnum = some sections →
      ((∀ s ∈ sections, s.1 ≠ 2) ∨ (∀ s ∈ sections, s.1 ≠ 3)) →
      parse_elf_symbol b = .ok none) ∧
    (∀ (mem : Mem) (info : JitInfo) (b : List Nat), info.name = none →
      mem.read info.elfAddr info.elfSize = some b → parse_elf_symbol b = .ok none →
      resolveJitSymbol mem info = (false, info, true)) ∧
    (∀ (b : List Nat) (nm : Name) (v : Nat),
      parse_elf_symbol b = .ok (some (nm, v)) →
      b.take 4 = elfMagic ∧
      ∃ shoff shnum x sections soff ssize stroff,
        unpackLE b 40 8 = some shoff ∧ unpackLE b 60 2 = some shnum ∧
        unpackLE b 62 2 = some x ∧ readShdrs b shoff shnum = some sections ∧
        findTables sections none none = (some (soff, ssize), some stroff) ∧
        ∃ i, 1 ≤ i ∧ i < ssize / 24 ∧
          (∃ stName stInfo, readSym b soff i = some (stName, stInfo, v) ∧
            stInfo % 16 = 2 ∧ nm = readCString b (stroff + stName)) ∧
          (∀ j, 1 ≤ j → j < i → ∃ s, readSym b soff j = some s ∧ s.2.1 % 16 ≠ 2)) := by
  refine ⟨?_, ?_, ?_, ?_⟩
  · intro b h
    unfold parse_elf_symbol
    rw [if_pos h]
  · intro b shoff shnum x sections h40 h60 h62 hsh hdisj
    by_cases hm : b.take 4 ≠ elfMagic
    · unfold parse_elf_symbol
      rw [if_pos hm]
    · unfold parse_elf_symbol
      rw [if_neg hm]
      simp only [h40, h60, h62, hsh]
      cases hft : findTables sections none none with
      | mk o1 o2 =>
          rcases hdisj with hno2 | hno3
          · have ho1 : o1 = none := by
              have := findTables_fst_none sections none none hno2
              rw [hft] at this
              exact this
            subst ho1
            rfl
          · have ho2 : o2 = none := by
              have := findTables_snd_none sections none none hno3
              rw [hft] at this
              exact this
            subst ho2
            cases o1 <;> rfl
  · intro mem info b hn hr hp
    simp only [resolveJitSymbol, hn, hr, hp]
  · intro b nm v h
    unfold parse_elf_symbol at h
    by_cases hm : b.take 4 ≠ elfMagic
    · rw [if_pos hm] at h
      exact absurd h (by simp)
    · rw [if_neg hm] at h
      rw [not_not] at hm
      refine ⟨hm, ?_⟩
      cases h40 : unpackLE b 40 8 with
      | none => rw [h40] at h; exact absurd h (by simp)
      | some shoff =>
      cases h60 : unpackLE b 60 2 with
      | none => rw [h40, h60] at h; exact absurd h (by simp)
      | some shnum =>
      cases h62 : unpackLE b 62 2 with
      | none => rw [h40, h60, h62] at h; exact absurd h (by simp)
      | some x =>
      simp only [h40, h60, h62] at h
      cases hsh : readShdrs b shoff shnum with
      | none => rw [hsh] at h; exact absurd h (by simp)
      | some sections =>
      simp only [hsh] at h
      cases hft : findTables sections none none with
      | mk o1 o2 =>
      rw [hft] at h
      cases o1 with
      | none => exact absurd h (by simp)
      | some st =>
      cases o2 with
      | none => exact absurd h (by simp)
      | some stroff =>
      have h3 : findFuncSym b st.1 stroff (st.2 / 24 - 1) 1 = .ok (some (nm, v)) := h
      obtain ⟨d, hd, ⟨stName, stInfo, hrs, hti, hnm⟩, hprev⟩ :=
        findFuncSym_ok b st.1 stroff (st.2 / 24 - 1) 1 nm v h3
      refine ⟨shoff, shnum, x, sections, st.1, st.2, stroff, rfl, rfl, rfl, hsh, hft,
        1 + d, by omega, by omega, ⟨stName, stInfo, hrs, hti, hnm⟩, ?_⟩
      intro j hj1 hji
      have harith : j = 1 + (j - 1) := by omega
      rw [harith]
      exact hprev (j - 1) (by omega)

set_option maxRecDepth 100000 in
/-- C8 witness: a wrong-signature blob leaves a concrete entry
unresolved with no escaping error, and the concrete well-formed blob
carrying `Foo` has the expected signature as the successful parse
requires. -/
theorem C8_resolution_witness :
    resolveJitSymbol badMagicMem (mkJitInfo 0x600000 4) =
      (false, mkJitInfo 0x600000 4, true) ∧
    fooBlob.take 4 = elfMagic := by
  constructor
  · exact C8_resolution_silent_failure_first_func.2.2.1 badMagicMem
      (mkJitInfo 0x600000 4) [1, 2, 3, 4] rfl rfl (by rfl)
  · exact (C8_resolution_silent_failure_first_func.2.2.2 fooBlob
      [70, 111, 111] 0x1010 (by rfl)).1

end ProtonOS
